import Mathlib

/-!
# Tic-Tac-Toe: board and game controller of `script.js`

A shallow embedding of the three modules of `script.js`:

* `gameBoard` (the JavaScript array `board` with `setField`, `getField`, `reset`),
* `displayController` (only the two functions that write the message element, and the
  guard of the field click handler),
* `gameController` (`round`, `isOver`, `playRound`, `getCurrentPlayerSign`, `checkWinner`,
  `getIsOver`, `reset`).

Signs are JavaScript strings (`""`, `"X"`, `"O"`), indices are integers, `undefined` is `none`.
-/

namespace TicTacToe

/-! ## Player -/

/-- The object returned by `Player(sign)`: its only method is `getSign`. -/
structure Player where
  sign : String
  deriving DecidableEq, Repr

/-- `getSign`: returns the captured `sign`. -/
def Player.getSign (p : Player) : String := p.sign

/-- `const playerX = Player("X")`. -/
def playerX : Player := ⟨"X"⟩

/-- `const playerO = Player("O")`. -/
def playerO : Player := ⟨"O"⟩

/-! ## gameBoard -/

/-- The JavaScript array `board`.  `cells` are its elements `0 .. length - 1`; `props` are
the own properties with a negative integer key, which `board[index] = sign` creates when
`index < 0` (such a key is not an array index: the elements and `length` are untouched). -/
structure Board where
  cells : List String
  props : List (Int × String)
  deriving DecidableEq, Repr

/-- `const board = ["", "", "", "", "", "", "", "", ""]`. -/
def Board.initial : Board := ⟨["", "", "", "", "", "", "", "", ""], []⟩

/-- Assignment to a property with a non-index key: overwrite in place, else add. -/
def setProp : List (Int × String) → Int → String → List (Int × String)
  | [], k, v => [(k, v)]
  | (k', v') :: rest, k, v =>
    if k' = k then (k', v) :: rest else (k', v') :: setProp rest k v

/-- Read of a property with a non-index key; `none` is `undefined`. -/
def getProp : List (Int × String) → Int → Option String
  | [], _ => none
  | (k', v') :: rest, k => if k' = k then some v' else getProp rest k

/-- The assignment `board[index] = sign` for an integer `index ≤ board.length`:
an element write inside the array, an append when `index = board.length`, a property
write when `index < 0`. -/
def Board.assign (b : Board) (index : Int) (sign : String) : Board :=
  if index < 0 then { b with props := setProp b.props index sign }
  else if index.toNat < b.cells.length then { b with cells := b.cells.set index.toNat sign }
  else { b with cells := b.cells ++ [sign] }

/-- The read `board[index]` for an integer `index`. -/
def Board.read (b : Board) (index : Int) : Option String :=
  if index < 0 then getProp b.props index else b.cells[index.toNat]?

/-- `setField(index, sign)`: `if (index > board.length) return; board[index] = sign`. -/
def Board.setField (b : Board) (index : Int) (sign : String) : Board :=
  if index > (b.cells.length : Int) then b else b.assign index sign

/-- `getField(index)`: `if (index > board.length) return; return board[index]`. -/
def Board.getField (b : Board) (index : Int) : Option String :=
  if index > (b.cells.length : Int) then none else b.read index

/-- `reset()`: `for (let i = 0; i < board.length; i++) board[i] = ""`. -/
def Board.reset (b : Board) : Board :=
  { b with cells := b.cells.map (fun _ => "") }

/-! ## State of the page -/

/-- The mutable state of the script: the board of `gameBoard`, `round` and `isOver` of
`gameController`, and the successive values written to `messageElement.textContent`
(oldest first; the text shown is the last one). -/
structure State where
  board : Board
  round : Nat
  isOver : Bool
  messages : List String
  deriving DecidableEq, Repr

/-- The state when the script has been loaded: empty board, `round = 1`, `isOver = false`. -/
def State.initial : State := ⟨Board.initial, 1, false, []⟩

/-! ## displayController -/

/-- `setMessageElement(message)`: `messageElement.textContent = message`. -/
def setMessageElement (g : State) (message : String) : State :=
  { g with messages := g.messages ++ [message] }

/-- `setResultMessage(winner)`. -/
def setResultMessage (g : State) (winner : String) : State :=
  if winner = "Draw" then setMessageElement g "It's a draw!"
  else setMessageElement g ("Player " ++ winner ++ " has won!")

/-! ## gameController -/

/-- `getCurrentPlayerSign()`: `round % 2 === 1 ? playerX.getSign() : playerO.getSign()`. -/
def getCurrentPlayerSign (g : State) : String :=
  if g.round % 2 = 1 then playerX.getSign else playerO.getSign

/-- The table `winConditions` of `checkWinner`. -/
def winConditions : List (List Int) :=
  [ [0, 1, 2],
    [3, 4, 5],
    [6, 7, 8],
    [0, 3, 6],
    [1, 4, 7],
    [2, 5, 8],
    [0, 4, 8],
    [2, 4, 6] ]

/-- `checkWinner(fieldIndex)`: some combination containing `fieldIndex` has every field
equal to the current player's sign. -/
def checkWinner (g : State) (fieldIndex : Int) : Bool :=
  (winConditions.filter (fun combination => combination.contains fieldIndex)).any
    (fun possibleCombination =>
      possibleCombination.all
        (fun index => decide (g.board.getField index = some (getCurrentPlayerSign g))))

/-- `playRound(fieldIndex)`. -/
def playRound (g : State) (fieldIndex : Int) : State :=
  let g1 := { g with board := g.board.setField fieldIndex (getCurrentPlayerSign g) }
  if checkWinner g1 fieldIndex then
    { setResultMessage g1 (getCurrentPlayerSign g1) with isOver := true }
  else if g1.round = 9 then
    { setResultMessage g1 "Draw" with isOver := true }
  else
    let g2 := { g1 with round := g1.round + 1 }
    setMessageElement g2 ("Player " ++ getCurrentPlayerSign g2 ++ "'s turn")

/-- `getIsOver()`. -/
def getIsOver (g : State) : Bool := g.isOver

/-- `reset()` of the controller: `round = 1; isOver = false`. -/
def reset (g : State) : State :=
  { g with round := 1, isOver := false }

/-- The moves `fieldIndexes` played in order by successive `playRound` calls. -/
def playRounds (g : State) (fieldIndexes : List Int) : State :=
  fieldIndexes.foldl playRound g

/-- The state inside `playRound(fieldIndex)` right after its first statement,
`gameBoard.setField(fieldIndex, getCurrentPlayerSign())`. -/
def afterPlacement (g : State) (fieldIndex : Int) : State :=
  { g with board := g.board.setField fieldIndex (getCurrentPlayerSign g) }

/-- The click handler of a field, on the state of the script: `textContent` is the text of
the clicked element and `index` its parsed `data-index`.  (The `updateGameboard()` that
follows only copies the board into the page.) -/
def fieldClick (g : State) (textContent : String) (index : Int) : State :=
  if getIsOver g || textContent != "" then g else playRound g index

/-- The calls the two modules `gameBoard` and `gameController` offer. -/
inductive Op where
  | setField (index : Int) (sign : String)
  | getField (index : Int)
  | boardReset
  | playRound (fieldIndex : Int)
  | getIsOver
  | reset
  deriving DecidableEq, Repr

/-- The effect of one call on the state. -/
def step (g : State) : Op → State
  | Op.setField index sign => { g with board := g.board.setField index sign }
  | Op.getField _ => g
  | Op.boardReset => { g with board := g.board.reset }
  | Op.playRound fieldIndex => playRound g fieldIndex
  | Op.getIsOver => g
  | Op.reset => reset g

/-- The effect of a sequence of calls. -/
def run (g : State) (ops : List Op) : State :=
  ops.foldl step g

/-! ## Vocabulary of the specification -/

/-- Every cell of `line` holds `sign`. -/
def lineHolds (b : Board) (sign : String) (line : List Int) : Prop :=
  ∀ index ∈ line, b.getField index = some sign

instance (b : Board) (sign : String) (line : List Int) : Decidable (lineHolds b sign line) := by
  unfold lineHolds
  infer_instance

/-- The unrestricted win check of the specification: all 8 lines of the table are examined
for three cells holding the current player's sign, whatever the index played. -/
def checkAllLines (g : State) : Bool :=
  winConditions.any (fun line => decide (lineHolds g.board (getCurrentPlayerSign g) line))

/-- No line of the table is uniformly marked, neither with `"X"` nor with `"O"`. -/
def noThreeInARow (b : Board) : Prop :=
  ∀ line ∈ winConditions, ¬ lineHolds b "X" line ∧ ¬ lineHolds b "O" line

instance (b : Board) : Decidable (noThreeInARow b) := by
  unfold noThreeInARow
  infer_instance

/-- The next-turn prompt `playRound` emits when it has raised `round` to `newRound`. -/
def turnPrompt (newRound : Nat) : String :=
  "Player " ++ (if newRound % 2 = 1 then "X" else "O") ++ "'s turn"

/-- Row of a cell index on the 3×3 grid: `index ÷ 3`. -/
def row (index : Int) : Int := index / 3

/-- Column of a cell index on the 3×3 grid: `index mod 3`. -/
def col (index : Int) : Int := index % 3

/-- The three cells share a row, or share a column, or all lie on the main diagonal
(`row = col`), or all lie on the anti-diagonal (`row + col = 2`). -/
def canonicalLine (a b c : Int) : Prop :=
  (row a = row b ∧ row b = row c) ∨
  (col a = col b ∧ col b = col c) ∨
  (row a = col a ∧ row b = col b ∧ row c = col c) ∨
  (row a + col a = 2 ∧ row b + col b = 2 ∧ row c + col c = 2)

instance (a b c : Int) : Decidable (canonicalLine a b c) := by
  unfold canonicalLine
  infer_instance

/-- The triple `a, b, c` is in the table `winConditions`, up to the order of its cells. -/
def inWinConditions (a b c : Int) : Prop :=
  ∃ line ∈ winConditions, line.Perm [a, b, c]

instance (a b c : Int) : Decidable (inWinConditions a b c) := by
  unfold inWinConditions
  infer_instance

/-- The cells of `line` share a row. -/
def isRow (line : List Int) : Prop := ∀ x ∈ line, ∀ y ∈ line, row x = row y

/-- The cells of `line` share a column. -/
def isColumn (line : List Int) : Prop := ∀ x ∈ line, ∀ y ∈ line, col x = col y

/-- The cells of `line` all lie on the main diagonal, or all on the anti-diagonal. -/
def isDiagonal (line : List Int) : Prop :=
  (∀ x ∈ line, row x = col x) ∨ (∀ x ∈ line, row x + col x = 2)

instance (line : List Int) : Decidable (isRow line) := by
  unfold isRow
  infer_instance

instance (line : List Int) : Decidable (isColumn line) := by
  unfold isColumn
  infer_instance

instance (line : List Int) : Decidable (isDiagonal line) := by
  unfold isDiagonal
  infer_instance

/-- The conditions under which the field click handler submits a move: the index is one of
`0..8`, the cell is empty and the session is not over. -/
def guardedMove (g : State) (index : Int) : Prop :=
  0 ≤ index ∧ index ≤ 8 ∧ g.board.getField index = some "" ∧ getIsOver g = false

instance (g : State) (index : Int) : Decidable (guardedMove g index) := by
  unfold guardedMove
  infer_instance

/-- A game from `g` in which every move satisfies `guardedMove` in the state it is played. -/
def guardedGame : State → List Int → Prop
  | _, [] => True
  | g, index :: rest => guardedMove g index ∧ guardedGame (playRound g index) rest

instance guardedGameDecidable : (g : State) → (moves : List Int) → Decidable (guardedGame g moves)
  | _, [] => isTrue trivial
  | g, index :: rest =>
    have := guardedGameDecidable (playRound g index) rest
    inferInstanceAs (Decidable (guardedMove g index ∧ guardedGame (playRound g index) rest))

/-- Every one of the cells `0..8` holds a sign other than the empty string. -/
def allCellsMarked (b : Board) : Prop :=
  ∀ index : Int, 0 ≤ index → index ≤ 8 → ∃ sign, b.getField index = some sign ∧ sign ≠ ""

/-- The invariant of a game played under the guard of the click handler, after `m` moves:
the board has its 9 cells, each `"X"`, `"O"` or empty, with `⌈m/2⌉` X and `⌊m/2⌋` O; while
the session is not over `round = m + 1` and no line is uniformly marked; and when the last
notification is the draw, every cell is marked and no line is uniformly marked. -/
def GameInv (g : State) (m : Nat) : Prop :=
  g.board.cells.length = 9 ∧
  (∀ sign ∈ g.board.cells, sign = "X" ∨ sign = "O" ∨ sign = "") ∧
  g.board.cells.count "X" = (m + 1) / 2 ∧
  g.board.cells.count "O" = m / 2 ∧
  g.board.cells.count "" = 9 - m ∧
  m ≤ 9 ∧
  (getIsOver g = false → g.round = m + 1 ∧ noThreeInARow g.board) ∧
  (g.messages.getLast? = some "It's a draw!" → allCellsMarked g.board ∧ noThreeInARow g.board)

/-! ## Board lemmas -/

theorem getProp_setProp_same (ps : List (Int × String)) (k : Int) (v : String) :
    getProp (setProp ps k v) k = some v := by
  induction ps with
  | nil => simp [setProp, getProp]
  | cons p rest ih =>
    obtain ⟨k', v'⟩ := p
    by_cases h : k' = k
    · simp [setProp, getProp, h]
    · simp [setProp, getProp, h, ih]

theorem getProp_setProp_ne (ps : List (Int × String)) (k j : Int) (v : String) (h : j ≠ k) :
    getProp (setProp ps k v) j = getProp ps j := by
  induction ps with
  | nil => simp [setProp, getProp, Ne.symm h]
  | cons p rest ih =>
    obtain ⟨k', v'⟩ := p
    by_cases hk : k' = k
    · subst hk
      simp [setProp, getProp, Ne.symm h]
    · by_cases hj : k' = j
      · subst hj
        simp [setProp, getProp, hk]
      · simp [setProp, getProp, hk, hj, ih]

/-- Reading back the index just written, for an index inside the array. -/
theorem getField_setField_same (b : Board) (i : Int) (m : String)
    (h0 : 0 ≤ i) (hlt : i < (b.cells.length : Int)) :
    (b.setField i m).getField i = some m := by
  have h1 : ¬ i > (b.cells.length : Int) := by omega
  have h2 : ¬ i < 0 := by omega
  have h3 : i.toNat < b.cells.length := by omega
  simp [Board.setField, Board.getField, Board.assign, Board.read, h1, h2, h3]

/-- A write at `i` is not seen by a read at another index `j`. -/
theorem getField_setField_ne (b : Board) (i j : Int) (m : String) (h : j ≠ i) :
    (b.setField i m).getField j = b.getField j := by
  unfold Board.setField
  by_cases h1 : i > (b.cells.length : Int)
  · simp [h1]
  · simp only [h1, if_false]
    unfold Board.assign
    by_cases h2 : i < 0
    · simp only [h2, if_true]
      unfold Board.getField Board.read
      by_cases h3 : j < 0
      · simp [h3, getProp_setProp_ne _ _ _ _ h]
      · simp [h3]
    · simp only [h2, if_false]
      by_cases h3 : i.toNat < b.cells.length
      · simp only [h3, if_true]
        unfold Board.getField Board.read
        simp only [List.length_set]
        by_cases h4 : j > (b.cells.length : Int)
        · simp [h4]
        · by_cases h5 : j < 0
          · simp [h4, h5]
          · have h6 : i.toNat ≠ j.toNat := by omega
            simp [h4, h5, List.getElem?_set_ne h6]
      · simp only [h3, if_false]
        unfold Board.getField Board.read
        simp only [List.length_append, List.length_singleton, Nat.cast_add, Nat.cast_one]
        have hi : i = (b.cells.length : Int) := by omega
        by_cases h5 : j < 0
        · have h4 : ¬ j > (b.cells.length : Int) := by omega
          have h4b : ¬ j > (b.cells.length : Int) + 1 := by omega
          rw [if_neg h4, if_neg h4b, if_pos h5, if_pos h5]
        · by_cases h4 : j > (b.cells.length : Int)
          · rw [if_pos h4]
            by_cases h4b : j > (b.cells.length : Int) + 1
            · rw [if_pos h4b]
            · rw [if_neg h4b, if_neg h5]
              have h8 : (b.cells ++ [m]).length ≤ j.toNat := by
                simp only [List.length_append, List.length_singleton]
                omega
              exact List.getElem?_eq_none h8
          · have h4b : ¬ j > (b.cells.length : Int) + 1 := by omega
            have h7 : j.toNat < b.cells.length := by omega
            rw [if_neg h4, if_neg h4b, if_neg h5, if_neg h5]
            exact List.getElem?_append_left h7

/-! ## The three outcomes of `playRound` -/

theorem getCurrentPlayerSign_cases (g : State) :
    (g.round % 2 = 1 ∧ getCurrentPlayerSign g = "X") ∨
    (g.round % 2 = 0 ∧ getCurrentPlayerSign g = "O") := by
  unfold getCurrentPlayerSign playerX playerO Player.getSign
  by_cases h : g.round % 2 = 1
  · left; simp [h]
  · right
    have : g.round % 2 = 0 := by omega
    simp [this]

theorem getCurrentPlayerSign_afterPlacement (g : State) (i : Int) :
    getCurrentPlayerSign (afterPlacement g i) = getCurrentPlayerSign g := rfl

theorem checkWinner_iff (g : State) (fieldIndex : Int) :
    checkWinner g fieldIndex = true ↔
      ∃ line ∈ winConditions, fieldIndex ∈ line ∧
        lineHolds g.board (getCurrentPlayerSign g) line := by
  simp only [checkWinner, lineHolds, List.any_eq_true, List.mem_filter, List.all_eq_true,
    decide_eq_true_eq, List.contains, List.elem_eq_mem]
  constructor
  · rintro ⟨line, ⟨hmem, hin⟩, hall⟩
    exact ⟨line, hmem, hin, hall⟩
  · rintro ⟨line, hmem, hin, hall⟩
    exact ⟨line, ⟨hmem, hin⟩, hall⟩

theorem checkAllLines_iff (g : State) :
    checkAllLines g = true ↔
      ∃ line ∈ winConditions, lineHolds g.board (getCurrentPlayerSign g) line := by
  simp [checkAllLines]

theorem playRound_win (g : State) (i : Int) (h : checkWinner (afterPlacement g i) i = true) :
    playRound g i =
      { board := g.board.setField i (getCurrentPlayerSign g), round := g.round, isOver := true,
        messages := g.messages ++ ["Player " ++ getCurrentPlayerSign g ++ " has won!"] } := by
  have h' : checkWinner { g with board := g.board.setField i (getCurrentPlayerSign g) } i = true := h
  have hs : getCurrentPlayerSign { g with board := g.board.setField i (getCurrentPlayerSign g) }
      = getCurrentPlayerSign g := rfl
  unfold playRound
  simp only [h', if_true, hs]
  rcases getCurrentPlayerSign_cases g with ⟨_, hx⟩ | ⟨_, hx⟩ <;>
    simp [hx, setResultMessage, setMessageElement]

theorem playRound_draw (g : State) (i : Int) (h : checkWinner (afterPlacement g i) i = false)
    (h9 : g.round = 9) :
    playRound g i =
      { board := g.board.setField i (getCurrentPlayerSign g), round := g.round, isOver := true,
        messages := g.messages ++ ["It's a draw!"] } := by
  have h' : checkWinner { g with board := g.board.setField i (getCurrentPlayerSign g) } i = false := h
  unfold playRound
  simp only [h', Bool.false_eq_true, if_false]
  simp [h9, setResultMessage, setMessageElement]

theorem playRound_next (g : State) (i : Int) (h : checkWinner (afterPlacement g i) i = false)
    (h9 : g.round ≠ 9) :
    playRound g i =
      { board := g.board.setField i (getCurrentPlayerSign g), round := g.round + 1,
        isOver := g.isOver,
        messages := g.messages ++
          ["Player " ++ (if (g.round + 1) % 2 = 1 then "X" else "O") ++ "'s turn"] } := by
  have h' : checkWinner { g with board := g.board.setField i (getCurrentPlayerSign g) } i = false := h
  unfold playRound
  simp only [h', Bool.false_eq_true, if_false]
  simp [h9, setMessageElement, getCurrentPlayerSign, playerX, playerO, Player.getSign]

/-! ## Texts of the notifications -/

theorem wonText_injective (w w' : String)
    (h : "Player " ++ w ++ " has won!" = "Player " ++ w' ++ " has won!") : w = w' := by
  have h1 := congrArg String.data h
  simp only [String.data_append, List.append_assoc] at h1
  have h2 := List.append_cancel_left h1
  have h3 := List.append_cancel_right h2
  exact String.ext h3

theorem drawText_ne_wonText (w : String) : "It's a draw!" ≠ "Player " ++ w ++ " has won!" := by
  intro h
  have h1 := congrArg String.length h
  simp only [String.length_append] at h1
  have e1 : "It's a draw!".length = 12 := by decide
  have e2 : "Player ".length = 7 := by decide
  have e3 : " has won!".length = 9 := by decide
  omega

theorem turnText_ne_wonText (n : Nat) (w : String) :
    "Player " ++ (if n % 2 = 1 then "X" else "O") ++ "'s turn" ≠
      "Player " ++ w ++ " has won!" := by
  intro h
  have h1 := congrArg String.length h
  simp only [String.length_append] at h1
  have e1 : "'s turn".length = 7 := by decide
  have e2 : "Player ".length = 7 := by decide
  have e3 : " has won!".length = 9 := by decide
  have e4 : (if n % 2 = 1 then "X" else "O").length = 1 := by
    split <;> decide
  omega

theorem playRound_board (g : State) (i : Int) :
    (playRound g i).board = g.board.setField i (getCurrentPlayerSign g) := by
  cases h : checkWinner (afterPlacement g i) i
  · by_cases h9 : g.round = 9
    · rw [playRound_draw g i h h9]
    · rw [playRound_next g i h h9]
  · rw [playRound_win g i h]

theorem playRound_reports_win_iff_checkWinner (g : State) (i : Int) :
    (∃ w, (playRound g i).messages = g.messages ++ ["Player " ++ w ++ " has won!"]) ↔
      checkWinner (afterPlacement g i) i = true := by
  constructor
  · rintro ⟨w, hw⟩
    cases h : checkWinner (afterPlacement g i) i
    · exfalso
      by_cases h9 : g.round = 9
      · rw [playRound_draw g i h h9] at hw
        simp only [List.append_cancel_left_eq, List.cons.injEq, and_true] at hw
        exact drawText_ne_wonText w hw
      · rw [playRound_next g i h h9] at hw
        simp only [List.append_cancel_left_eq, List.cons.injEq, and_true] at hw
        exact turnText_ne_wonText (g.round + 1) w hw
    · rfl
  · intro h
    exact ⟨getCurrentPlayerSign g, by rw [playRound_win g i h]⟩

/-! ## C1: win detection -/

/-- C1. For every state and every `fieldIndex` in `0..8`, `playRound(fieldIndex)` emits the
notification "Player w has won!" exactly when, on the board after the placement, some line of
`winConditions` that contains `fieldIndex` has its three cells equal to the current player's
sign; the `w` reported is then the sign just placed (read back at `fieldIndex`), `isOver`
becomes true and `round` is not incremented.  From the initial state the move sequences
0,3,1,4,2 and 0,1,4,2,8 report "Player X has won!" on the 5th call and a next-turn prompt on
calls 1 to 4. -/
theorem playRound_win_detection (g : State) (fieldIndex : Int)
    (_h0 : 0 ≤ fieldIndex) (_h8 : fieldIndex ≤ 8) :
    ((∃ w, (playRound g fieldIndex).messages = g.messages ++ ["Player " ++ w ++ " has won!"]) ↔
      ∃ line ∈ winConditions, fieldIndex ∈ line ∧
        lineHolds (playRound g fieldIndex).board (getCurrentPlayerSign g) line) ∧
    (∀ w, (playRound g fieldIndex).messages = g.messages ++ ["Player " ++ w ++ " has won!"] →
      w = getCurrentPlayerSign g ∧
      (playRound g fieldIndex).board = g.board.setField fieldIndex w ∧
      (playRound g fieldIndex).board.getField fieldIndex = some w ∧
      (playRound g fieldIndex).isOver = true ∧
      (playRound g fieldIndex).round = g.round) ∧
    (playRounds State.initial [0, 3, 1, 4, 2]).messages =
      ["Player O's turn", "Player X's turn", "Player O's turn", "Player X's turn",
        "Player X has won!"] ∧
    (playRounds State.initial [0, 1, 4, 2, 8]).messages =
      ["Player O's turn", "Player X's turn", "Player O's turn", "Player X's turn",
        "Player X has won!"] := by
  refine ⟨?_, ?_, by decide, by decide⟩
  · rw [playRound_reports_win_iff_checkWinner, checkWinner_iff, playRound_board]
    rfl
  · intro w hw
    have hc : checkWinner (afterPlacement g fieldIndex) fieldIndex = true :=
      (playRound_reports_win_iff_checkWinner g fieldIndex).mp ⟨w, hw⟩
    have hw' := hw
    rw [playRound_win g fieldIndex hc] at hw'
    simp only [List.append_cancel_left_eq, List.cons.injEq, and_true] at hw'
    have hsign : w = getCurrentPlayerSign g := (wonText_injective _ _ hw').symm
    obtain ⟨line, _, hin, hall⟩ := (checkWinner_iff _ _).mp hc
    have hread : (g.board.setField fieldIndex (getCurrentPlayerSign g)).getField fieldIndex
        = some (getCurrentPlayerSign g) := hall fieldIndex hin
    subst hsign
    rw [playRound_win g fieldIndex hc]
    exact ⟨rfl, rfl, hread, rfl, rfl⟩

/-- The statement of C1 at the state reached by 0,3,1,4 and the move 2: a win is reported
there, through the line 0,1,2. -/
theorem playRound_win_detection_witness :
    (0 : Int) ≤ 2 ∧ (2 : Int) ≤ 8 ∧
    (∃ w, (playRound (playRounds State.initial [0, 3, 1, 4]) 2).messages =
      (playRounds State.initial [0, 3, 1, 4]).messages ++ ["Player " ++ w ++ " has won!"]) ∧
    (playRound (playRounds State.initial [0, 3, 1, 4]) 2).isOver = true ∧
    (playRound (playRounds State.initial [0, 3, 1, 4]) 2).round = 5 :=
  ⟨by decide, by decide,
    (playRound_win_detection (playRounds State.initial [0, 3, 1, 4]) 2
      (by decide) (by decide)).1.mpr ⟨[0, 1, 2], by decide, by decide, by decide⟩,
    by decide, by decide⟩

/-! ## C2: the restricted win check is exhaustive -/

/-- C2. On a board where the current player has no complete line before the move, for every
`fieldIndex` in `0..8`, after `setField(fieldIndex, currentSign)` the restricted
`checkWinner(fieldIndex)` returns the same result as the check of all 8 lines. -/
theorem checkWinner_exhaustive (g : State) (fieldIndex : Int)
    (_h0 : 0 ≤ fieldIndex) (_h8 : fieldIndex ≤ 8)
    (hbefore : checkAllLines g = false) :
    checkWinner (afterPlacement g fieldIndex) fieldIndex
      = checkAllLines (afterPlacement g fieldIndex) := by
  rw [Bool.eq_iff_iff, checkWinner_iff, checkAllLines_iff]
  constructor
  · rintro ⟨line, hmem, _, hall⟩
    exact ⟨line, hmem, hall⟩
  · rintro ⟨line, hmem, hall⟩
    refine ⟨line, hmem, ?_, hall⟩
    by_contra hnot
    have hold : lineHolds g.board (getCurrentPlayerSign g) line := by
      intro index hindex
      have hne : index ≠ fieldIndex := fun heq => hnot (heq ▸ hindex)
      have := hall index hindex
      rw [getCurrentPlayerSign_afterPlacement] at this
      rw [← this]
      exact (getField_setField_ne g.board fieldIndex index _ hne).symm
    have : checkAllLines g = true := (checkAllLines_iff g).mpr ⟨line, hmem, hold⟩
    rw [hbefore] at this
    exact Bool.noConfusion this

/-- C2 at the state reached by 0,3,1,4 and the move 2: X has no line before the move, and
both checks answer true after it. -/
theorem checkWinner_exhaustive_witness :
    (0 : Int) ≤ 2 ∧ (2 : Int) ≤ 8 ∧
    checkAllLines (playRounds State.initial [0, 3, 1, 4]) = false ∧
    checkAllLines (afterPlacement (playRounds State.initial [0, 3, 1, 4]) 2) = true ∧
    checkWinner (afterPlacement (playRounds State.initial [0, 3, 1, 4]) 2) 2
      = checkAllLines (afterPlacement (playRounds State.initial [0, 3, 1, 4]) 2) :=
  ⟨by decide, by decide, by decide, by decide,
    checkWinner_exhaustive (playRounds State.initial [0, 3, 1, 4]) 2
      (by decide) (by decide) (by decide)⟩

/-! ## C3: draw detection -/

theorem playRounds_append (g : State) (xs ys : List Int) :
    playRounds g (xs ++ ys) = playRounds (playRounds g xs) ys := by
  simp [playRounds, List.foldl_append]

theorem playRounds_take_succ (g : State) (moves : List Int) (k : Nat) (hk : k < moves.length) :
    playRounds g (moves.take (k + 1)) = playRound (playRounds g (moves.take k)) (moves.get ⟨k, hk⟩) := by
  rw [List.take_succ, playRounds_append, List.getElem?_eq_getElem hk]
  rfl

theorem checkWinner_false_of_noThreeInARow (g : State) (i : Int)
    (h : noThreeInARow (g.board.setField i (getCurrentPlayerSign g))) :
    checkWinner (afterPlacement g i) i = false := by
  cases hc : checkWinner (afterPlacement g i) i
  · rfl
  · exfalso
    obtain ⟨line, hmem, _, hall⟩ := (checkWinner_iff _ _).mp hc
    rw [getCurrentPlayerSign_afterPlacement] at hall
    have hall' : lineHolds (g.board.setField i (getCurrentPlayerSign g))
        (getCurrentPlayerSign g) line := hall
    rcases getCurrentPlayerSign_cases g with ⟨_, hx⟩ | ⟨_, hx⟩
    · rw [hx] at hall'
      exact (h line hmem).1 (hx ▸ hall')
    · rw [hx] at hall'
      exact (h line hmem).2 (hx ▸ hall')

theorem draw_prefix (g : State) (moves : List Int) (hround : g.round = 1)
    (hover : g.isOver = false)
    (hno : ∀ k ≤ moves.length, noThreeInARow (playRounds g (moves.take k)).board) :
    ∀ k, k ≤ 8 → k ≤ moves.length →
      (playRounds g (moves.take k)).round = k + 1 ∧
      (playRounds g (moves.take k)).isOver = false ∧
      (playRounds g (moves.take k)).messages
        = g.messages ++ (List.range k).map (fun j => turnPrompt (j + 2)) := by
  intro k
  induction k with
  | zero =>
    intro _ _
    simp [playRounds, hround, hover]
  | succ k ih =>
    intro hk8 hklen
    obtain ⟨hr, ho, hm⟩ := ih (by omega) (by omega)
    have hlt : k < moves.length := by omega
    have hstep := playRounds_take_succ g moves k hlt
    have hboard := hno (k + 1) hklen
    rw [hstep, playRound_board] at hboard
    have hc := checkWinner_false_of_noThreeInARow _ _ hboard
    have h9 : (playRounds g (moves.take k)).round ≠ 9 := by omega
    rw [hstep, playRound_next _ _ hc h9]
    refine ⟨by simp [hr], ho, ?_⟩
    simp only [hm, hr, List.range_succ, List.map_append, List.map_cons, List.map_nil,
      List.append_assoc, turnPrompt]

/-- C3. For every sequence of 9 moves from the initial state that plays each index `0..8`
exactly once and never leaves three equal marks on a line, the 9 calls emit the eight
next-turn prompts followed by "It's a draw!" (call `k` emits the `k`-th text), `getIsOver()`
is false after each of the calls 1 to 8 (and before the first) and true after the 9th. -/
theorem draw_detection (moves : List Int)
    (hperm : moves.Perm [0, 1, 2, 3, 4, 5, 6, 7, 8])
    (hno : ∀ k ≤ 9, noThreeInARow (playRounds State.initial (moves.take k)).board) :
    (∀ k ≤ 9, (playRounds State.initial (moves.take k)).messages =
      (["Player O's turn", "Player X's turn", "Player O's turn", "Player X's turn",
        "Player O's turn", "Player X's turn", "Player O's turn", "Player X's turn",
        "It's a draw!"] : List String).take k) ∧
    (∀ k ≤ 8, getIsOver (playRounds State.initial (moves.take k)) = false) ∧
    getIsOver (playRounds State.initial moves) = true := by
  have hlen : moves.length = 9 := by simpa using hperm.length_eq
  have hno' : ∀ k ≤ moves.length, noThreeInARow (playRounds State.initial (moves.take k)).board := by
    rw [hlen]; exact hno
  have hpre := draw_prefix State.initial moves rfl rfl hno'
  have hlast : playRounds State.initial moves =
      { board := (playRounds State.initial moves).board, round := 9, isOver := true,
        messages := (playRounds State.initial (moves.take 8)).messages ++ ["It's a draw!"] } := by
    obtain ⟨hr, _, _⟩ := hpre 8 (by omega) (by omega)
    have hfull : moves.take 9 = moves := List.take_of_length_le (by omega)
    have hstep : playRounds State.initial (moves.take 9) =
        playRound (playRounds State.initial (moves.take 8)) (moves.get ⟨8, by omega⟩) :=
      playRounds_take_succ State.initial moves 8 (by omega)
    have hboard := hno 9 (by omega)
    rw [hstep, playRound_board] at hboard
    rw [hfull] at hstep
    have hc := checkWinner_false_of_noThreeInARow _ _ hboard
    have h9 : (playRounds State.initial (moves.take 8)).round = 9 := by omega
    have hd := playRound_draw _ _ hc h9
    rw [← hstep] at hd
    rw [hd]
    simp [h9]
  refine ⟨?_, ?_, ?_⟩
  · intro k hk
    by_cases hk8 : k ≤ 8
    · obtain ⟨_, _, hm⟩ := hpre k hk8 (by omega)
      rw [hm]
      interval_cases k <;> decide
    · have hk9 : k = 9 := by omega
      subst hk9
      have hfull : moves.take 9 = moves := List.take_of_length_le (by omega)
      obtain ⟨_, _, hm⟩ := hpre 8 (by omega) (by omega)
      rw [hfull, hlast]
      simp only [hm]
      decide
  · intro k hk
    exact (hpre k hk (by omega)).2.1
  · rw [hlast]
    rfl

/-- C3 on the game 0,1,2,4,3,5,7,6,8, which fills the board without a line. -/
theorem draw_detection_witness :
    ([0, 1, 2, 4, 3, 5, 7, 6, 8] : List Int).Perm [0, 1, 2, 3, 4, 5, 6, 7, 8] ∧
    (playRounds State.initial [0, 1, 2, 4, 3, 5, 7, 6, 8]).messages.getLast? = some "It's a draw!" ∧
    getIsOver (playRounds State.initial [0, 1, 2, 4, 3, 5, 7, 6, 8]) = true :=
  have hperm : ([0, 1, 2, 4, 3, 5, 7, 6, 8] : List Int).Perm [0, 1, 2, 3, 4, 5, 6, 7, 8] := by
    decide
  have h := draw_detection [0, 1, 2, 4, 3, 5, 7, 6, 8] hperm (by decide)
  have h9 : (playRounds State.initial [0, 1, 2, 4, 3, 5, 7, 6, 8]).messages =
      ["Player O's turn", "Player X's turn", "Player O's turn", "Player X's turn",
        "Player O's turn", "Player X's turn", "Player O's turn", "Player X's turn",
        "It's a draw!"] := h.1 9 (le_refl 9)
  ⟨hperm, by rw [h9]; decide, h.2.2⟩

/-! ## C4: turn parity -/

/-- The array never shrinks under `setField`. -/
theorem setField_length_le (b : Board) (i : Int) (m : String) :
    b.cells.length ≤ (b.setField i m).cells.length := by
  unfold Board.setField Board.assign
  split
  · exact le_refl _
  · split
    · exact le_refl _
    · split
      · simp
      · simp

theorem playRounds_length_le (g : State) (moves : List Int) :
    g.board.cells.length ≤ (playRounds g moves).board.cells.length := by
  induction moves generalizing g with
  | nil => exact le_refl _
  | cons i rest ih =>
    have h1 := setField_length_le g.board i (getCurrentPlayerSign g)
    have h2 := ih (playRound g i)
    rw [playRound_board] at h2
    exact le_trans h1 h2

theorem playRound_isOver_false (g : State) (i : Int) (h : (playRound g i).isOver = false) :
    g.isOver = false ∧ (playRound g i).round = g.round + 1 := by
  cases hc : checkWinner (afterPlacement g i) i
  · by_cases h9 : g.round = 9
    · rw [playRound_draw g i hc h9] at h
      exact Bool.noConfusion h
    · rw [playRound_next g i hc h9] at h ⊢
      exact ⟨h, rfl⟩
  · rw [playRound_win g i hc] at h
    exact Bool.noConfusion h

theorem playRounds_isOver_false (g : State) (moves : List Int)
    (h : (playRounds g moves).isOver = false) :
    g.isOver = false ∧ (playRounds g moves).round = g.round + moves.length := by
  induction moves generalizing g with
  | nil => exact ⟨h, rfl⟩
  | cons i rest ih =>
    obtain ⟨h1, h2⟩ := ih (playRound g i) h
    obtain ⟨h3, h4⟩ := playRound_isOver_false g i h1
    refine ⟨h3, ?_⟩
    show (playRounds (playRound g i) rest).round = _
    rw [h2, h4, List.length_cons]
    omega

/-- C4. `playRound` writes `"X"` into the chosen cell when `round` is odd and `"O"` when it is
even (the cell reads back as that sign); hence from a fresh session (`round = 1`, not over,
a board of at least 9 cells), after any earlier calls none of which ended the game, the
call number `k = moves.length + 1` finds `round = k` and places `"X"` for odd `k` and `"O"`
for even `k`. -/
theorem turn_parity (fieldIndex : Int) (h0 : 0 ≤ fieldIndex) (h8 : fieldIndex ≤ 8) :
    (∀ g : State, 9 ≤ g.board.cells.length →
      (playRound g fieldIndex).board
        = g.board.setField fieldIndex (if g.round % 2 = 1 then "X" else "O") ∧
      (playRound g fieldIndex).board.getField fieldIndex
        = some (if g.round % 2 = 1 then "X" else "O")) ∧
    (∀ (b : Board) (msgs : List String) (moves : List Int), 9 ≤ b.cells.length →
      getIsOver (playRounds ⟨b, 1, false, msgs⟩ moves) = false →
      (playRounds ⟨b, 1, false, msgs⟩ moves).round = moves.length + 1 ∧
      (playRound (playRounds ⟨b, 1, false, msgs⟩ moves) fieldIndex).board.getField fieldIndex
        = some (if (moves.length + 1) % 2 = 1 then "X" else "O")) := by
  have key : ∀ g : State, 9 ≤ g.board.cells.length →
      (playRound g fieldIndex).board
        = g.board.setField fieldIndex (if g.round % 2 = 1 then "X" else "O") ∧
      (playRound g fieldIndex).board.getField fieldIndex
        = some (if g.round % 2 = 1 then "X" else "O") := by
    intro g hlen
    have hs : getCurrentPlayerSign g = (if g.round % 2 = 1 then "X" else "O") := rfl
    rw [playRound_board, hs]
    exact ⟨rfl, getField_setField_same _ _ _ h0 (by omega)⟩
  refine ⟨key, ?_⟩
  intro b msgs moves hlen hover
  obtain ⟨_, hr⟩ := playRounds_isOver_false _ _ hover
  have hr' : (playRounds ⟨b, 1, false, msgs⟩ moves).round = moves.length + 1 := by
    rw [hr]; simp only []; omega
  have hlen' : 9 ≤ (playRounds ⟨b, 1, false, msgs⟩ moves).board.cells.length :=
    le_trans hlen (playRounds_length_le ⟨b, 1, false, msgs⟩ moves)
  refine ⟨hr', ?_⟩
  have := (key _ hlen').2
  rw [hr'] at this
  exact this

/-- C4 at the second call of the game 0,3: O is placed at 3. -/
theorem turn_parity_witness :
    (0 : Int) ≤ 3 ∧ (3 : Int) ≤ 8 ∧
    (playRound (playRounds State.initial [0]) 3).board.getField 3 = some "O" :=
  ⟨by decide, by decide,
    ((turn_parity 3 (by decide) (by decide)).2 Board.initial [] [0] (by decide) (by decide)).2⟩

/-! ## C5: the continue case -/

/-- C5. For every state and every `fieldIndex`, when `checkWinner` finds no win after the
placement and `round` is not 9, `playRound` raises `round` by exactly 1, leaves `isOver` as
it was, and emits exactly one notification: the next-turn prompt, which names the player of
the new round and so the player opposite to the one whose sign was just placed. -/
theorem playRound_continue (g : State) (fieldIndex : Int)
    (hnowin : checkWinner (afterPlacement g fieldIndex) fieldIndex = false)
    (h9 : g.round ≠ 9) :
    (playRound g fieldIndex).round = g.round + 1 ∧
    (playRound g fieldIndex).isOver = g.isOver ∧
    (playRound g fieldIndex).messages
      = g.messages ++ ["Player " ++ getCurrentPlayerSign (playRound g fieldIndex) ++ "'s turn"] ∧
    (getCurrentPlayerSign g = "X" →
      (playRound g fieldIndex).messages = g.messages ++ ["Player O's turn"]) ∧
    (getCurrentPlayerSign g = "O" →
      (playRound g fieldIndex).messages = g.messages ++ ["Player X's turn"]) := by
  rw [playRound_next g fieldIndex hnowin h9]
  refine ⟨rfl, rfl, ?_, ?_, ?_⟩
  · simp [getCurrentPlayerSign, playerX, playerO, Player.getSign]
  · intro hx
    rcases getCurrentPlayerSign_cases g with ⟨hp, _⟩ | ⟨_, ho⟩
    · have : ¬ (g.round + 1) % 2 = 1 := by omega
      simp only [this, if_false]
      have e : "Player " ++ "O" ++ "'s turn" = "Player O's turn" := by decide
      rw [e]
    · rw [ho] at hx
      exact absurd hx (by decide)
  · intro ho
    rcases getCurrentPlayerSign_cases g with ⟨_, hx⟩ | ⟨hp, _⟩
    · rw [hx] at ho
      exact absurd ho (by decide)
    · have : (g.round + 1) % 2 = 1 := by omega
      simp only [this, if_true]
      have e : "Player " ++ "X" ++ "'s turn" = "Player X's turn" := by decide
      rw [e]

/-- C5 at the first move of a game: X plays 0, the prompt names O. -/
theorem playRound_continue_witness :
    checkWinner (afterPlacement State.initial 0) 0 = false ∧ State.initial.round ≠ 9 ∧
    (playRound State.initial 0).round = 2 ∧
    (playRound State.initial 0).messages = ["Player O's turn"] :=
  have h := playRound_continue State.initial 0 (by decide) (by decide)
  ⟨by decide, by decide, h.1, h.2.2.2.1 (by decide)⟩

/-! ## C6: moves submitted while the session is over -/

theorem playRound_round (g : State) (i : Int) :
    (playRound g i).round =
      if checkWinner (afterPlacement g i) i = true ∨ g.round = 9 then g.round
      else g.round + 1 := by
  cases hc : checkWinner (afterPlacement g i) i
  · by_cases h9 : g.round = 9
    · rw [playRound_draw g i hc h9]
      simp [h9]
    · rw [playRound_next g i hc h9]
      simp [h9]
  · rw [playRound_win g i hc]
    simp

theorem playRound_isOver_of_isOver (g : State) (i : Int) (h : g.isOver = true) :
    (playRound g i).isOver = true := by
  cases hc : checkWinner (afterPlacement g i) i
  · by_cases h9 : g.round = 9
    · rw [playRound_draw g i hc h9]
    · rw [playRound_next g i hc h9]
      exact h
  · rw [playRound_win g i hc]

/-- C6, as stated, fails: after the won game 0,3,1,4,2 the session is over, and
`playRound(5)` still writes `"X"` into cell 5 and raises `round` from 5 to 6. -/
theorem playRound_when_over_counterexample :
    getIsOver (playRounds State.initial [0, 3, 1, 4, 2]) = true ∧
    (playRounds State.initial [0, 3, 1, 4, 2]).board.getField 5 = some "" ∧
    (playRound (playRounds State.initial [0, 3, 1, 4, 2]) 5).board.getField 5 = some "X" ∧
    (playRounds State.initial [0, 3, 1, 4, 2]).round = 5 ∧
    (playRound (playRounds State.initial [0, 3, 1, 4, 2]) 5).round = 6 := by
  decide

/-- C6, amended. Once the session is over, a move submitted through the field click handler
is not accepted: in every state with the flag set, for every clicked text and every index,
the handler returns before calling `playRound` and the state (board and `round` included)
is unchanged.  `playRound` itself does not read `isOver`: called with the flag set, for
every `fieldIndex` it still executes `setField(fieldIndex, currentSign)`, leaves `round`
unchanged exactly when it finds a win or `round` is 9 and raises it by 1 otherwise, and
leaves the flag set. -/
theorem playRound_when_over (g : State) (fieldIndex : Int) (hover : getIsOver g = true) :
    (∀ textContent : String, fieldClick g textContent fieldIndex = g) ∧
    (playRound g fieldIndex).board = g.board.setField fieldIndex (getCurrentPlayerSign g) ∧
    (playRound g fieldIndex).round =
      (if checkWinner (afterPlacement g fieldIndex) fieldIndex = true ∨ g.round = 9 then g.round
       else g.round + 1) ∧
    ((playRound g fieldIndex).round = g.round ↔
      (checkWinner (afterPlacement g fieldIndex) fieldIndex = true ∨ g.round = 9)) ∧
    getIsOver (playRound g fieldIndex) = true := by
  refine ⟨?_, playRound_board g fieldIndex, playRound_round g fieldIndex, ?_,
    playRound_isOver_of_isOver g fieldIndex hover⟩
  · intro textContent
    simp [fieldClick, hover]
  · rw [playRound_round]
    constructor
    · intro h
      by_contra hnot
      rw [if_neg hnot] at h
      omega
    · intro h
      rw [if_pos h]

/-- The amended C6 after the won game 0,3,1,4,2: a click on field 5 changes nothing, while
a direct `playRound(5)` raises `round` from 5 to 6. -/
theorem playRound_when_over_witness :
    getIsOver (playRounds State.initial [0, 3, 1, 4, 2]) = true ∧
    fieldClick (playRounds State.initial [0, 3, 1, 4, 2]) "" 5
      = playRounds State.initial [0, 3, 1, 4, 2] ∧
    (playRound (playRounds State.initial [0, 3, 1, 4, 2]) 5).round = 6 :=
  have h := playRound_when_over (playRounds State.initial [0, 3, 1, 4, 2]) 5 (by decide)
  ⟨by decide, h.1 "", h.2.2.1.trans (by decide)⟩

/-- A direct `playRound` while over can also leave the cells and `round` as they were: after
the won game 0,3,1,4,2, `playRound(2)` writes "X" over "X" and finds the win again. -/
theorem playRound_when_over_same_cell :
    (playRounds State.initial [0, 3, 1, 4, 2]).board.cells
      = ["X", "X", "X", "O", "O", "", "", "", ""] ∧
    (playRound (playRounds State.initial [0, 3, 1, 4, 2]) 2).board.cells
      = ["X", "X", "X", "O", "O", "", "", "", ""] ∧
    (playRounds State.initial [0, 3, 1, 4, 2]).round = 5 ∧
    (playRound (playRounds State.initial [0, 3, 1, 4, 2]) 2).round = 5 := by
  refine ⟨by decide, by decide, by decide, by decide⟩

/-! ## C7: over is left only through reset -/

/-- C7. In every state in which the session is over, it is still over after
`playRound(fieldIndex)` for every `fieldIndex` and after every call other than the
controller's `reset()` (the board operations included); `reset()` makes `getIsOver()` false
and sets `round` to 1. -/
theorem over_left_only_by_reset (g : State) (hover : getIsOver g = true) :
    (∀ fieldIndex : Int, getIsOver (playRound g fieldIndex) = true) ∧
    (∀ (index : Int) (sign : String), getIsOver (step g (Op.setField index sign)) = true) ∧
    getIsOver (step g Op.boardReset) = true ∧
    (∀ op : Op, getIsOver (step g op) = false → op = Op.reset) ∧
    getIsOver (reset g) = false ∧ (reset g).round = 1 := by
  refine ⟨fun i => playRound_isOver_of_isOver g i hover, fun _ _ => hover, hover, ?_, rfl, rfl⟩
  intro op hop
  cases op with
  | setField index sign => exact absurd (hover.symm.trans hop) (by decide)
  | getField index => exact absurd (hover.symm.trans hop) (by decide)
  | boardReset => exact absurd (hover.symm.trans hop) (by decide)
  | playRound i =>
    exact absurd ((playRound_isOver_of_isOver g i hover).symm.trans hop) (by decide)
  | getIsOver => exact absurd (hover.symm.trans hop) (by decide)
  | reset => rfl

/-- C7 after the won game 0,1,4,2,8: another `playRound` leaves it over, `reset` does not. -/
theorem over_left_only_by_reset_witness :
    getIsOver (playRounds State.initial [0, 1, 4, 2, 8]) = true ∧
    getIsOver (playRound (playRounds State.initial [0, 1, 4, 2, 8]) 3) = true ∧
    getIsOver (reset (playRounds State.initial [0, 1, 4, 2, 8])) = false :=
  have h := over_left_only_by_reset (playRounds State.initial [0, 1, 4, 2, 8]) (by decide)
  ⟨by decide, h.1 3, h.2.2.2.2.1⟩

/-! ## C8: range of the turn counter -/

theorem step_round_range (g : State) (op : Op) (h : 1 ≤ g.round ∧ g.round ≤ 9) :
    1 ≤ (step g op).round ∧ (step g op).round ≤ 9 := by
  cases op with
  | setField index sign => exact h
  | getField index => exact h
  | boardReset => exact h
  | playRound i =>
    show 1 ≤ (playRound g i).round ∧ (playRound g i).round ≤ 9
    rw [playRound_round]
    split <;> omega
  | getIsOver => exact h
  | reset =>
    show 1 ≤ 1 ∧ 1 ≤ 9
    omega

theorem run_round_range (g : State) (ops : List Op) (h : 1 ≤ g.round ∧ g.round ≤ 9) :
    1 ≤ (run g ops).round ∧ (run g ops).round ≤ 9 := by
  induction ops generalizing g with
  | nil => exact h
  | cons op rest ih => exact ih (step g op) (step_round_range g op h)

/-- C8. In every state reached from an initial session (`round = 1`, not over, any board)
by any sequence of calls (`playRound` with any index, the controller's `reset`, and the
board operations), `1 ≤ round ≤ 9`; in particular whenever `getIsOver()` is false. -/
theorem round_range (b : Board) (msgs : List String) (ops : List Op) :
    1 ≤ (run ⟨b, 1, false, msgs⟩ ops).round ∧ (run ⟨b, 1, false, msgs⟩ ops).round ≤ 9 :=
  run_round_range ⟨b, 1, false, msgs⟩ ops ⟨le_refl 1, by show 1 ≤ 9; omega⟩

/-! ## C9 and C10: writes through `setField` -/

theorem step_length_le (g : State) (op : Op) :
    g.board.cells.length ≤ (step g op).board.cells.length := by
  cases op with
  | setField index sign => exact setField_length_le g.board index sign
  | getField index => exact le_refl _
  | boardReset => simp [step, Board.reset]
  | playRound i =>
    show _ ≤ (playRound g i).board.cells.length
    rw [playRound_board]
    exact setField_length_le _ _ _
  | getIsOver => exact le_refl _
  | reset => exact le_refl _

/-- Every board reached from the initial state has at least the 9 cells it started with. -/
theorem run_length_ge (ops : List Op) : 9 ≤ (run State.initial ops).board.cells.length := by
  have key : ∀ (g : State), 9 ≤ g.board.cells.length → 9 ≤ (run g ops).board.cells.length := by
    induction ops with
    | nil => intro g h; exact h
    | cons op rest ih =>
      intro g h
      exact ih (step g op) (le_trans h (step_length_le g op))
  exact key State.initial (by decide)

/-- C9. For every board (of at least 9 cells, as every board reached from the initial one
is), every index `i` in `0..8` and every sign `m`, `getField(i)` after `setField(i, m)`
returns `m`, whatever cell `i` held before. -/
theorem getField_after_setField (b : Board) (i : Int) (m : String)
    (hlen : 9 ≤ b.cells.length) (h0 : 0 ≤ i) (h8 : i ≤ 8) :
    (b.setField i m).getField i = some m :=
  getField_setField_same b i m h0 (by omega)

/-- C9 on a board where cell 4 is already occupied by "X": writing "O" reads back "O". -/
theorem getField_after_setField_witness :
    9 ≤ (Board.initial.setField 4 "X").cells.length ∧ (0 : Int) ≤ 4 ∧ (4 : Int) ≤ 8 ∧
    (Board.initial.setField 4 "X").getField 4 = some "X" ∧
    ((Board.initial.setField 4 "X").setField 4 "O").getField 4 = some "O" :=
  ⟨by decide, by decide, by decide, by decide,
    getField_after_setField (Board.initial.setField 4 "X") 4 "O"
      (by decide) (by decide) (by decide)⟩

/-- C10 fails at index 9: the guard of `setField` is `index > board.length`, so on the
9-cell board `setField(9, "X")` is not ignored; it appends a tenth element, which
`getField(9)` then returns. -/
theorem setField_at_length_appends :
    (Board.initial.setField 9 "X").cells = ["", "", "", "", "", "", "", "", "", "X"] ∧
    (Board.initial.setField 9 "X").cells ≠ Board.initial.cells ∧
    Board.initial.getField 9 = none ∧
    (Board.initial.setField 9 "X").getField 9 = some "X" := by
  decide

/-! ## C11 and C12: reads outside `0..8` and the length of the board -/

/-- C11 fails after a write at index 9 or at a negative index: `setField(9, "X")` appends a
tenth element (its guard is `index > board.length`), which `getField(9)` returns instead of
`undefined`; `setField(-1, "X")` stores a property that `getField(-1)` returns. -/
theorem getField_outside_after_setField :
    Board.initial.getField 9 = none ∧
    (Board.initial.setField 9 "X").getField 9 = some "X" ∧
    Board.initial.getField (-1) = none ∧
    (Board.initial.setField (-1) "X").getField (-1) = some "X" := by
  decide

/-- C12 fails at index 9: from the initial state one `setField(9, "X")`, or one
`playRound(9)`, leaves a board of 10 cells. -/
theorem board_length_after_index_nine :
    State.initial.board.cells.length = 9 ∧
    (run State.initial [Op.setField 9 "X"]).board.cells.length = 10 ∧
    (run State.initial [Op.playRound 9]).board.cells.length = 10 := by
  decide

/-! ## C13 and C14: the two resets -/

/-- C13. For every state (with a board of at least 9 cells, as every reachable board has),
after the board's `reset()` the call `getField(i)` returns the empty string for every `i` in
`0..8`, and `round` and `isOver` are what they were. -/
theorem board_reset_clears (g : State) (i : Int)
    (hlen : 9 ≤ g.board.cells.length) (h0 : 0 ≤ i) (h8 : i ≤ 8) :
    (step g Op.boardReset).board = g.board.reset ∧
    (step g Op.boardReset).board.getField i = some "" ∧
    (step g Op.boardReset).round = g.round ∧
    getIsOver (step g Op.boardReset) = getIsOver g := by
  refine ⟨rfl, ?_, rfl, rfl⟩
  show g.board.reset.getField i = some ""
  have h1 : ¬ i > ((g.board.cells.map (fun _ => "")).length : Int) := by
    rw [List.length_map]; omega
  have h2 : ¬ i < 0 := by omega
  have h3 : i.toNat < g.board.cells.length := by omega
  unfold Board.reset Board.getField Board.read
  simp only [h1, h2, if_false, List.getElem?_map, List.getElem?_eq_getElem h3, Option.map_some']

/-- C13 after the won game 0,3,1,4,2: cell 0 held "X" and is empty after the board reset,
while `round` stays 5 and the session stays over. -/
theorem board_reset_clears_witness :
    9 ≤ (playRounds State.initial [0, 3, 1, 4, 2]).board.cells.length ∧
    (0 : Int) ≤ 0 ∧ (0 : Int) ≤ 8 ∧
    (playRounds State.initial [0, 3, 1, 4, 2]).board.getField 0 = some "X" ∧
    (step (playRounds State.initial [0, 3, 1, 4, 2]) Op.boardReset).board.getField 0 = some "" ∧
    (step (playRounds State.initial [0, 3, 1, 4, 2]) Op.boardReset).round = 5 ∧
    getIsOver (step (playRounds State.initial [0, 3, 1, 4, 2]) Op.boardReset) = true :=
  have h := board_reset_clears (playRounds State.initial [0, 3, 1, 4, 2]) 0
    (by decide) (by decide) (by decide)
  ⟨by decide, by decide, by decide, by decide, h.2.1, h.2.2.1.trans (by decide),
    h.2.2.2.trans (by decide)⟩

/-- C14. In every state the controller's `reset()` sets `round` to 1 and makes `getIsOver()`
false, and it leaves the board as it is: every `getField` returns what it returned before. -/
theorem session_reset (g : State) :
    (step g Op.reset).round = 1 ∧
    getIsOver (step g Op.reset) = false ∧
    (step g Op.reset).board = g.board ∧
    (∀ i : Int, (step g Op.reset).board.getField i = g.board.getField i) ∧
    (getIsOver (step (playRounds State.initial [0, 3, 1, 4, 2]) Op.reset) = false ∧
      (step (playRounds State.initial [0, 3, 1, 4, 2]) Op.reset).board.getField 0 = some "X") := by
  refine ⟨rfl, rfl, rfl, fun _ => rfl, ?_⟩
  decide

/-! ## C15: a move with an index outside `0..8` -/

theorem not_mem_line_of_out_of_range (i : Int) (h : i < 0 ∨ 9 ≤ i) :
    ∀ line ∈ winConditions, i ∉ line := by
  intro line hline hi
  simp only [winConditions, List.mem_cons, List.mem_singleton, List.not_mem_nil, or_false] at hline
  rcases hline with rfl | rfl | rfl | rfl | rfl | rfl | rfl | rfl <;>
    simp only [List.mem_cons, List.mem_singleton, List.not_mem_nil, or_false] at hi <;>
    omega

/-- What holds of `playRound` at every index outside `0..8`: no win is found, the cells
`0..8` keep their values, and the draw or next-turn step is taken. -/
theorem playRound_out_of_range (g : State) (i : Int) (h : i < 0 ∨ 9 ≤ i) :
    checkWinner (afterPlacement g i) i = false ∧
    (∀ j : Int, 0 ≤ j → j ≤ 8 → (playRound g i).board.getField j = g.board.getField j) ∧
    (g.round = 9 → getIsOver (playRound g i) = true ∧
      (playRound g i).messages = g.messages ++ ["It's a draw!"]) ∧
    (g.round ≠ 9 → (playRound g i).round = g.round + 1) := by
  have hc : checkWinner (afterPlacement g i) i = false := by
    cases hc : checkWinner (afterPlacement g i) i
    · rfl
    · obtain ⟨line, hmem, hin, _⟩ := (checkWinner_iff _ _).mp hc
      exact absurd hin (not_mem_line_of_out_of_range i h line hmem)
  refine ⟨hc, ?_, ?_, ?_⟩
  · intro j hj0 hj8
    rw [playRound_board]
    exact getField_setField_ne _ _ _ _ (by omega)
  · intro h9
    rw [playRound_draw g i hc h9]
    exact ⟨rfl, rfl⟩
  · intro h9
    rw [playRound_next g i hc h9]

/-- C15 fails at index 9: on the initial state `playRound(9)` does not leave the board
unchanged, it appends "X" as a tenth cell (no win is reported and `round` goes to 2). -/
theorem playRound_index_nine_appends :
    (playRound State.initial 9).board.cells = ["", "", "", "", "", "", "", "", "", "X"] ∧
    (playRound State.initial 9).board ≠ State.initial.board ∧
    (playRound State.initial 9).round = 2 ∧
    (playRound State.initial 9).messages = ["Player O's turn"] := by
  decide

/-! ## C16: the table `winConditions` -/

set_option synthInstance.maxHeartbeats 400000 in
set_option synthInstance.maxSize 2000 in
set_option maxRecDepth 100000 in
theorem inWinConditions_iff_canonicalLine_nat :
    ∀ a < 9, ∀ b < 9, ∀ c < 9, a ≠ b ∧ a ≠ c ∧ b ≠ c →
      (inWinConditions (a : Nat) (b : Nat) (c : Nat) ↔
        canonicalLine (a : Nat) (b : Nat) (c : Nat)) := by
  decide

/-- C16. With `row = index ÷ 3` and `col = index mod 3`, a triple of distinct indices in
`0..8` is in `winConditions` up to order exactly when its cells share a row, share a column,
lie on the main diagonal or lie on the anti-diagonal.  The table has 8 entries, each a triple
of distinct indices in `0..8`: 3 rows, 3 columns and 2 diagonals, no two of them the same
triple, even up to order. -/
theorem winConditions_canonical (a b c : Int)
    (ha0 : 0 ≤ a) (ha8 : a ≤ 8) (hb0 : 0 ≤ b) (hb8 : b ≤ 8) (hc0 : 0 ≤ c) (hc8 : c ≤ 8)
    (hab : a ≠ b) (hac : a ≠ c) (hbc : b ≠ c) :
    (inWinConditions a b c ↔ canonicalLine a b c) ∧
    winConditions.length = 8 ∧
    (∀ line ∈ winConditions, line.length = 3 ∧ line.Nodup ∧ ∀ x ∈ line, 0 ≤ x ∧ x ≤ 8) ∧
    (winConditions.filter (fun line => decide (isRow line))).length = 3 ∧
    (winConditions.filter (fun line => decide (isColumn line))).length = 3 ∧
    (winConditions.filter (fun line => decide (isDiagonal line))).length = 2 ∧
    winConditions.Pairwise (fun line line' => ¬ line.Perm line') := by
  refine ⟨?_, by decide, by decide, by decide, by decide, by decide, by decide⟩
  have ha : ((a.toNat : Nat) : Int) = a := Int.toNat_of_nonneg ha0
  have hb : ((b.toNat : Nat) : Int) = b := Int.toNat_of_nonneg hb0
  have hc : ((c.toNat : Nat) : Int) = c := Int.toNat_of_nonneg hc0
  have key := inWinConditions_iff_canonicalLine_nat a.toNat (by omega) b.toNat (by omega)
    c.toNat (by omega) ⟨by omega, by omega, by omega⟩
  rw [ha, hb, hc] at key
  exact key

/-- C16 at the anti-diagonal given in another order, 6,2,4: it is in the table. -/
theorem winConditions_canonical_witness :
    canonicalLine 6 2 4 ∧ inWinConditions 6 2 4 :=
  ⟨by decide,
    ((winConditions_canonical 6 2 4 (by decide) (by decide) (by decide) (by decide)
      (by decide) (by decide) (by decide) (by decide) (by decide)).1).mpr (by decide)⟩

/-! ## C17 and C18: games played under the guard of the click handler -/

theorem setField_cells_of_lt (b : Board) (i : Int) (m : String)
    (h0 : 0 ≤ i) (hlt : i < (b.cells.length : Int)) :
    (b.setField i m).cells = b.cells.set i.toNat m := by
  have h1 : ¬ i > (b.cells.length : Int) := by omega
  have h2 : ¬ i < 0 := by omega
  have h3 : i.toNat < b.cells.length := by omega
  simp [Board.setField, Board.assign, h1, h2, h3]

theorem getField_eq_getElem (b : Board) (i : Int) (h0 : 0 ≤ i) (hlt : i < (b.cells.length : Int)) :
    b.getField i = b.cells[i.toNat]? := by
  have h1 : ¬ i > (b.cells.length : Int) := by omega
  have h2 : ¬ i < 0 := by omega
  simp [Board.getField, Board.read, h1, h2]

/-- A move that `checkWinner` does not find winning leaves no line uniformly marked, if
none was before. -/
theorem noThreeInARow_after_move (g : State) (i : Int)
    (h0 : 0 ≤ i) (hlt : i < (g.board.cells.length : Int))
    (hno : noThreeInARow g.board)
    (hc : checkWinner (afterPlacement g i) i = false) :
    noThreeInARow (g.board.setField i (getCurrentPlayerSign g)) := by
  have hsame := getField_setField_same g.board i (getCurrentPlayerSign g) h0 hlt
  have key : ∀ (t : String) (line : List Int), line ∈ winConditions →
      ¬ lineHolds g.board t line →
      ¬ lineHolds (g.board.setField i (getCurrentPlayerSign g)) t line := by
    intro t line hmem hold hnew
    by_cases hin : i ∈ line
    · have ht := hnew i hin
      rw [hsame] at ht
      have hts : getCurrentPlayerSign g = t := Option.some.inj ht
      have : checkWinner (afterPlacement g i) i = true := by
        rw [checkWinner_iff]
        refine ⟨line, hmem, hin, ?_⟩
        rw [getCurrentPlayerSign_afterPlacement, hts]
        exact hnew
      rw [hc] at this
      exact Bool.noConfusion this
    · apply hold
      intro j hj
      have hne : j ≠ i := fun heq => hin (heq ▸ hj)
      rw [← getField_setField_ne g.board i j (getCurrentPlayerSign g) hne]
      exact hnew j hj
  intro line hmem
  exact ⟨key "X" line hmem (hno line hmem).1, key "O" line hmem (hno line hmem).2⟩

theorem allCellsMarked_of_count (b : Board) (hlen : b.cells.length = 9)
    (hcount : b.cells.count "" = 0) : allCellsMarked b := by
  intro j hj0 hj8
  have hlt : j.toNat < b.cells.length := by omega
  refine ⟨b.cells[j.toNat], ?_, ?_⟩
  · rw [getField_eq_getElem b j hj0 (by omega), List.getElem?_eq_getElem hlt]
  · intro hempty
    have hmem : "" ∈ b.cells := hempty ▸ List.getElem_mem hlt
    exact (List.count_eq_zero.mp hcount) hmem

theorem turnText_ne_drawText (n : Nat) :
    "Player " ++ (if n % 2 = 1 then "X" else "O") ++ "'s turn" ≠ "It's a draw!" := by
  split <;> decide

theorem wonText_ne_drawText (g : State) :
    "Player " ++ getCurrentPlayerSign g ++ " has won!" ≠ "It's a draw!" :=
  fun h => drawText_ne_wonText _ h.symm

/-- The invariant is preserved by a move that satisfies the guard of the click handler. -/
theorem gameInv_playRound (g : State) (m : Nat) (i : Int)
    (hinv : GameInv g m) (hmove : guardedMove g i) : GameInv (playRound g i) (m + 1) := by
  unfold GameInv at hinv ⊢
  obtain ⟨hlen, hvals, hX, hO, hE, _, hong, _⟩ := hinv
  obtain ⟨h0, h8, hcell, hov⟩ := hmove
  obtain ⟨hr, hno⟩ := hong hov
  have hlt : i < (g.board.cells.length : Int) := by omega
  have hn : i.toNat < g.board.cells.length := by omega
  have hget : g.board.cells[i.toNat] = "" := by
    have h := hcell
    rw [getField_eq_getElem _ _ h0 hlt, List.getElem?_eq_getElem hn] at h
    exact Option.some.inj h
  have hmemE : "" ∈ g.board.cells := by
    have h := List.getElem_mem hn
    rw [hget] at h
    exact h
  have hpos : 0 < g.board.cells.count "" := List.count_pos_iff.mpr hmemE
  have hm8 : m ≤ 8 := by omega
  have hcells : (g.board.setField i (getCurrentPlayerSign g)).cells
      = g.board.cells.set i.toNat (getCurrentPlayerSign g) :=
    setField_cells_of_lt g.board i _ h0 hlt
  have hlen' : (g.board.setField i (getCurrentPlayerSign g)).cells.length = 9 := by
    rw [hcells, List.length_set]
    exact hlen
  have hvals' : ∀ sign ∈ (g.board.setField i (getCurrentPlayerSign g)).cells,
      sign = "X" ∨ sign = "O" ∨ sign = "" := by
    intro sign hs
    rw [hcells] at hs
    rcases List.mem_or_eq_of_mem_set hs with h | h
    · exact hvals sign h
    · rcases getCurrentPlayerSign_cases g with ⟨_, hx⟩ | ⟨_, hx⟩
      · exact Or.inl (h.trans hx)
      · exact Or.inr (Or.inl (h.trans hx))
  have hX' : (g.board.setField i (getCurrentPlayerSign g)).cells.count "X" = (m + 1 + 1) / 2 := by
    rw [hcells, List.count_set _ _ _ _ hn, hget, hX]
    rcases getCurrentPlayerSign_cases g with ⟨hp, hx⟩ | ⟨hp, hx⟩
    · rw [hx]
      have e1 : ("" == "X") = false := by decide
      have e2 : ("X" == "X") = true := by decide
      simp only [e1, e2, if_true, Bool.false_eq_true, if_false]
      omega
    · rw [hx]
      have e1 : ("" == "X") = false := by decide
      have e2 : ("O" == "X") = false := by decide
      simp only [e1, e2, Bool.false_eq_true, if_false]
      omega
  have hO' : (g.board.setField i (getCurrentPlayerSign g)).cells.count "O" = (m + 1) / 2 := by
    rw [hcells, List.count_set _ _ _ _ hn, hget, hO]
    rcases getCurrentPlayerSign_cases g with ⟨hp, hx⟩ | ⟨hp, hx⟩
    · rw [hx]
      have e1 : ("" == "O") = false := by decide
      have e2 : ("X" == "O") = false := by decide
      simp only [e1, e2, Bool.false_eq_true, if_false]
      omega
    · rw [hx]
      have e1 : ("" == "O") = false := by decide
      have e2 : ("O" == "O") = true := by decide
      simp only [e1, e2, if_true, Bool.false_eq_true, if_false]
      omega
  have hE' : (g.board.setField i (getCurrentPlayerSign g)).cells.count "" = 9 - (m + 1) := by
    rw [hcells, List.count_set _ _ _ _ hn, hget, hE]
    rcases getCurrentPlayerSign_cases g with ⟨_, hx⟩ | ⟨_, hx⟩
    · rw [hx]
      have e1 : ("" == "") = true := by decide
      have e2 : ("X" == "") = false := by decide
      simp only [e1, e2, if_true, Bool.false_eq_true, if_false]
      omega
    · rw [hx]
      have e1 : ("" == "") = true := by decide
      have e2 : ("O" == "") = false := by decide
      simp only [e1, e2, if_true, Bool.false_eq_true, if_false]
      omega
  have hnoNew := noThreeInARow_after_move g i h0 hlt hno
  cases hc : checkWinner (afterPlacement g i) i
  · by_cases h9 : g.round = 9
    · rw [playRound_draw g i hc h9]
      refine ⟨hlen', hvals', hX', hO', hE', by omega, ?_, ?_⟩
      · intro h
        exact Bool.noConfusion h
      · intro _
        exact ⟨allCellsMarked_of_count _ hlen' (by rw [hE']; omega), hnoNew hc⟩
    · rw [playRound_next g i hc h9]
      refine ⟨hlen', hvals', hX', hO', hE', by omega, ?_, ?_⟩
      · intro _
        exact ⟨by show g.round + 1 = m + 1 + 1; omega, hnoNew hc⟩
      · intro h
        exfalso
        have h' : some ("Player " ++ (if (g.round + 1) % 2 = 1 then "X" else "O") ++ "'s turn")
            = some "It's a draw!" := (List.getLast?_concat g.messages).symm.trans h
        exact turnText_ne_drawText _ (Option.some.inj h')
  · rw [playRound_win g i hc]
    refine ⟨hlen', hvals', hX', hO', hE', by omega, ?_, ?_⟩
    · intro h
      exact Bool.noConfusion h
    · intro h
      exfalso
      have h' : some ("Player " ++ getCurrentPlayerSign g ++ " has won!")
          = some "It's a draw!" := (List.getLast?_concat g.messages).symm.trans h
      exact wonText_ne_drawText g (Option.some.inj h')

theorem gameInv_initial : GameInv State.initial 0 := by
  unfold GameInv
  refine ⟨by decide, by decide, by decide, by decide, by decide, by decide,
    fun _ => ⟨rfl, by decide⟩, fun h => ?_⟩
  exact absurd h (by decide)

theorem gameInv_playRounds (g : State) (m : Nat) (moves : List Int)
    (hinv : GameInv g m) (hgame : guardedGame g moves) :
    GameInv (playRounds g moves) (m + moves.length) := by
  induction moves generalizing g m with
  | nil => exact hinv
  | cons i rest ih =>
    obtain ⟨hmove, hrest⟩ := hgame
    have h := ih (playRound g i) (m + 1) (gameInv_playRound g m i hinv hmove) hrest
    have e : m + (i :: rest).length = m + 1 + rest.length := by
      rw [List.length_cons]; omega
    rw [e]
    exact h

/-- C17. In a game from the initial state in which every move has an index in `0..8`,
targets an empty cell and is submitted while the session is not over, whenever the last
`playRound` call reports the draw, all nine cells are marked and no line of `winConditions`
holds three "X" or three "O". -/
theorem draw_soundness (moves : List Int)
    (hgame : guardedGame State.initial moves)
    (hdraw : (playRounds State.initial moves).messages.getLast? = some "It's a draw!") :
    allCellsMarked (playRounds State.initial moves).board ∧
    noThreeInARow (playRounds State.initial moves).board := by
  have h := gameInv_playRounds State.initial 0 moves gameInv_initial hgame
  unfold GameInv at h
  exact h.2.2.2.2.2.2.2 hdraw

/-- C17 on the game 0,1,2,4,3,5,7,6,8, which is played under the guard and ends in the
draw. -/
theorem draw_soundness_witness :
    guardedGame State.initial [0, 1, 2, 4, 3, 5, 7, 6, 8] ∧
    (playRounds State.initial [0, 1, 2, 4, 3, 5, 7, 6, 8]).messages.getLast?
      = some "It's a draw!" ∧
    allCellsMarked (playRounds State.initial [0, 1, 2, 4, 3, 5, 7, 6, 8]).board ∧
    noThreeInARow (playRounds State.initial [0, 1, 2, 4, 3, 5, 7, 6, 8]).board :=
  have hgame : guardedGame State.initial [0, 1, 2, 4, 3, 5, 7, 6, 8] := by decide
  have hdraw : (playRounds State.initial [0, 1, 2, 4, 3, 5, 7, 6, 8]).messages.getLast?
      = some "It's a draw!" := by decide
  ⟨hgame, hdraw, draw_soundness [0, 1, 2, 4, 3, 5, 7, 6, 8] hgame hdraw⟩

/-- C18. After `m = moves.length` moves from the initial state, each with an index in
`0..8`, on an empty cell and submitted while the session is not over, the 9 cells of the
board hold exactly `⌈m/2⌉` "X" and `⌊m/2⌋` "O", the other `9 - m` being empty; and while the
session is still not over, `round = m + 1` and no line of `winConditions` is uniformly
marked by either player. -/
theorem mark_count (moves : List Int) (hgame : guardedGame State.initial moves) :
    (playRounds State.initial moves).board.cells.length = 9 ∧
    (∀ sign ∈ (playRounds State.initial moves).board.cells,
      sign = "X" ∨ sign = "O" ∨ sign = "") ∧
    (playRounds State.initial moves).board.cells.count "X" = (moves.length + 1) / 2 ∧
    (playRounds State.initial moves).board.cells.count "O" = moves.length / 2 ∧
    (playRounds State.initial moves).board.cells.count "" = 9 - moves.length ∧
    (getIsOver (playRounds State.initial moves) = false →
      (playRounds State.initial moves).round = moves.length + 1 ∧
      noThreeInARow (playRounds State.initial moves).board) := by
  have h := gameInv_playRounds State.initial 0 moves gameInv_initial hgame
  unfold GameInv at h
  rw [Nat.zero_add] at h
  exact ⟨h.1, h.2.1, h.2.2.1, h.2.2.2.1, h.2.2.2.2.1, h.2.2.2.2.2.2.1⟩

/-- C18 after the three moves 0,3,1: two "X", one "O", six empty cells, `round = 4`. -/
theorem mark_count_witness :
    guardedGame State.initial [0, 3, 1] ∧
    (playRounds State.initial [0, 3, 1]).board.cells.count "X" = 2 ∧
    (playRounds State.initial [0, 3, 1]).board.cells.count "O" = 1 ∧
    (playRounds State.initial [0, 3, 1]).board.cells.count "" = 6 ∧
    (playRounds State.initial [0, 3, 1]).round = 4 :=
  have hgame : guardedGame State.initial [0, 3, 1] := by decide
  have h := mark_count [0, 3, 1] hgame
  ⟨hgame, h.2.2.1, h.2.2.2.1, h.2.2.2.2.1, (h.2.2.2.2.2 (by decide)).1⟩

/-! ## C19: every game ends within 9 calls -/

theorem playRounds_round_le (g : State) (moves : List Int) (h : g.round ≤ 9) :
    (playRounds g moves).round ≤ 9 := by
  induction moves generalizing g with
  | nil => exact h
  | cons i rest ih =>
    apply ih (playRound g i)
    rw [playRound_round]
    split <;> omega

/-- C19. From a fresh session (`round = 1`, not over) and any board, after any 9
consecutive `playRound` calls with arbitrary integer indices, `getIsOver()` is true. -/
theorem nine_calls_end (b : Board) (msgs : List String) (moves : List Int)
    (hlen : moves.length = 9) :
    getIsOver (playRounds ⟨b, 1, false, msgs⟩ moves) = true := by
  cases hover : getIsOver (playRounds ⟨b, 1, false, msgs⟩ moves)
  · exfalso
    obtain ⟨_, hr⟩ := playRounds_isOver_false ⟨b, 1, false, msgs⟩ moves hover
    have hle := playRounds_round_le ⟨b, 1, false, msgs⟩ moves (by show 1 ≤ 9; omega)
    rw [hr, hlen] at hle
    have : (1 : Nat) + 9 ≤ 9 := hle
    omega
  · rfl

/-- C19 on nine calls that all name the index 20, outside the board: the session is over
after them. -/
theorem nine_calls_end_witness :
    ([20, 20, 20, 20, 20, 20, 20, 20, 20] : List Int).length = 9 ∧
    getIsOver (playRounds State.initial [20, 20, 20, 20, 20, 20, 20, 20, 20]) = true :=
  ⟨by decide, nine_calls_end Board.initial [] [20, 20, 20, 20, 20, 20, 20, 20, 20] (by decide)⟩

/-! ## C20: frame of `setField` -/

/-- C20. For every state, every index `i` in `0..8` and every sign `m`, `setField(i, m)`
leaves `getField(j)` unchanged for every `j` in `0..8` other than `i`, and changes neither
`round` nor `isOver`. -/
theorem setField_frame (g : State) (i j : Int) (m : String)
    (_hi0 : 0 ≤ i) (_hi8 : i ≤ 8) (_hj0 : 0 ≤ j) (_hj8 : j ≤ 8) (hne : j ≠ i) :
    (g.board.setField i m).getField j = g.board.getField j ∧
    (step g (Op.setField i m)).board.getField j = g.board.getField j ∧
    (step g (Op.setField i m)).round = g.round ∧
    getIsOver (step g (Op.setField i m)) = getIsOver g :=
  ⟨getField_setField_ne g.board i j m hne, getField_setField_ne g.board i j m hne, rfl, rfl⟩

/-- C20 after the move 0: writing "O" at 4 leaves the "X" of cell 0 and `round = 2`. -/
theorem setField_frame_witness :
    (0 : Int) ≤ 4 ∧ (4 : Int) ≤ 8 ∧ (0 : Int) ≤ 0 ∧ (0 : Int) ≤ 8 ∧ (0 : Int) ≠ 4 ∧
    (step (playRound State.initial 0) (Op.setField 4 "O")).board.getField 0 = some "X" ∧
    (step (playRound State.initial 0) (Op.setField 4 "O")).round = 2 :=
  have h := setField_frame (playRound State.initial 0) 4 0 "O"
    (by decide) (by decide) (by decide) (by decide) (by decide)
  ⟨by decide, by decide, by decide, by decide, by decide, h.2.1.trans (by decide),
    h.2.2.1.trans (by decide)⟩

end TicTacToe
